import Mathlib

/-!
Shallow embedding of the Multi-Source-GTM-Search-Engine core
(src/search_pipeline.py, src/utils.py, src/query_generator.py, src/main.py).

Modelling conventions:
* Python evidence dicts become the structure Record; a key that may be
  absent is an Option field (absent = none).
* Python floats (confidence values) are modelled as rationals.
* MD5 hashing in hash_key and the builtin hash used by
  deduplicate_evidence are modelled as injective fingerprints, i.e. the
  hashed strings themselves.
* An evidence-source function (a stateful network call) is modelled by
  the outcome it yields on each attempt: a value of type Nat -> Outcome,
  where the argument is the attempt index inside one safe_call.
* Code that can raise an uncaught exception returns an Option, with
  none standing for the raised exception.
* The cooperative asyncio interleaving is linearised: the concurrently
  gathered safe_call tasks never write the cache and only increment
  counters (commuting updates), so running them sequentially in the
  gather order of search_pipeline.py line 126 is a faithful model.
-/

/-- One evidence dict as produced by the source adapters, fetch_html and
the error branches of SearchPipeline.safe_call.  Absent keys are none. -/
structure Record where
  source : Option String := none
  domain : Option String := none
  query : Option String := none
  content : Option String := none
  confidence : Option Rat := none
  error : Option String := none
deriving DecidableEq

/-- utils.hash_key: md5 of the string "domain:query".  The md5 hex digest
is modelled by the (injective up to the joining colon) joined string. -/
def hash_key (domain query : String) : String :=
  domain ++ ":" ++ query

/-- utils.SimpleCache: a dict from key to record, modelled as an
association list. -/
abbrev SimpleCache := List (String × Record)

/-- SimpleCache.get: dict.get, returning none when the key is absent. -/
def cacheGet (c : SimpleCache) (key : String) : Option Record :=
  (c.find? (fun p => p.1 == key)).map (fun p => p.2)

/-- The mutable state of one SearchPipeline instance plus the global
CACHE of utils.py: the three counters set in SearchPipeline.init,
the semaphore (None until batch_search sets it) and the cache store. -/
structure PipelineState where
  failed_requests : Nat := 0
  total_requests : Nat := 0
  cache_hits : Nat := 0
  semaphore : Option Nat := none
  cache : SimpleCache := []
deriving DecidableEq

/-- Outcome of awaiting one invocation of a source function under
asyncio.wait_for: a returned record, a TimeoutError, or some other
raised exception with its message. -/
inductive Outcome where
  | ok (r : Record)
  | timeout
  | exn (msg : String)
deriving DecidableEq

/-- Message of the TypeError raised by the statement "async with
self.semaphore" when self.semaphore is still None (quotes around
NoneType elided). -/
def noneTypeMsg : String :=
  "NoneType object does not support the asynchronous context manager protocol"

/-- The error dicts built in the except branches of safe_call. -/
def errRecord (msg : String) : Record := { error := some msg }

/-- What one iteration of the retry loop observes: entering the null
semaphore context raises a TypeError before the source function is even
called; otherwise the source function runs and yields its outcome. -/
def attempt_outcome (sem : Option Nat) (func : Nat → Outcome) (attempt : Nat) : Outcome :=
  match sem with
  | none => Outcome.exn noneTypeMsg
  | some _ => func attempt

/-- The retry loop of safe_call (search_pipeline.py lines 97-113),
recursing on the number of remaining attempts (remaining = retries -
attempt, so remaining = 0 exactly when attempt == retries).  Returns the
record handed back to the caller together with the updated
failed_requests counter.  On success the record is returned directly:
the loop never writes the cache. -/
def run_attempts (sem : Option Nat) (func : Nat → Outcome) :
    Nat → Nat → Nat → Record × Nat
  | attempt, 0, failed =>
    match attempt_outcome sem func attempt with
    | Outcome.ok r => (r, failed)
    | Outcome.timeout => (errRecord "timeout", failed + 1)
    | Outcome.exn m => (errRecord m, failed + 1)
  | attempt, n + 1, failed =>
    match attempt_outcome sem func attempt with
    | Outcome.ok r => (r, failed)
    | Outcome.timeout => run_attempts sem func (attempt + 1) n (failed + 1)
    | Outcome.exn _ => run_attempts sem func (attempt + 1) n (failed + 1)

/-- SearchPipeline.safe_call (search_pipeline.py lines 87-113).  The
total-request counter is incremented before the cache test; a hit also
increments the cache-hit counter and returns the cached record; a miss
runs the retry loop.  Nothing is ever stored into the cache. -/
def safe_call (s : PipelineState) (func : Nat → Outcome)
    (domain query : String) (retries : Nat) : Record × PipelineState :=
  let key := hash_key domain query
  let cached := cacheGet s.cache key
  let s1 : PipelineState := { s with total_requests := s.total_requests + 1 }
  match cached with
  | some r => (r, { s1 with cache_hits := s1.cache_hits + 1 })
  | none =>
    let t := run_attempts s1.semaphore func 0 retries s1.failed_requests
    (t.1, { s1 with failed_requests := t.2 })

/-- Loop body of utils.deduplicate_evidence with the running seen set
made explicit.  The Python loop computes hash(item["content"]) before
anything else, so an item without a content key raises KeyError
(modelled by none) even when the item would have been dropped; the
builtin string hash is modelled as the content string itself. -/
def dedupGo (seen : List String) : List Record → Option (List Record)
  | [] => some []
  | item :: rest =>
    match item.content with
    | none => none
    | some c =>
      if c ∈ seen then dedupGo seen rest
      else (dedupGo (c :: seen) rest).map (fun d => item :: d)

/-- utils.deduplicate_evidence (utils.py lines 24-33): keep the first
record per distinct content fingerprint; none models the KeyError raised
on a record without a content key. -/
def deduplicate_evidence (evidence_list : List Record) : Option (List Record) :=
  dedupGo [] evidence_list

/-- Word characters of the regex escapes used in synthesize_findings
(ASCII view of Python re's default word class). -/
def isWordChar (c : Char) : Bool := c.isAlphanum || c == '_'

/-- The substitution re.sub of non-word non-space characters by spaces
performed on the lowercased joined evidence text. -/
def stripPunct (text : List Char) : List Char :=
  text.map (fun c => if isWordChar c || c.isWhitespace then c else ' ')

/-- Does the pattern match at the head of text with regex word
boundaries on both sides, prev being the character just before the
current position (none at the start of the text)? -/
def matchHere (prev : Option Char) (pat text : List Char) : Bool :=
  (match pat, prev with
   | [], _ => true
   | c :: _, none => isWordChar c
   | c :: _, some p => isWordChar c != isWordChar p) &&
  pat.isPrefixOf text &&
  (match pat.getLast?, (text.drop pat.length).head? with
   | none, _ => true
   | some lc, none => isWordChar lc
   | some lc, some nc => isWordChar lc != isWordChar nc)

/-- re.search of a boundary-delimited literal pattern over the text:
try every position, threading the previous character. -/
def boundarySearch (prev : Option Char) (pat : List Char) : List Char → Bool
  | [] => matchHere prev pat []
  | c :: rest => matchHere prev pat (c :: rest) || boundarySearch (some c) pat rest

/-- The Python substring test (key in text) on character lists. -/
def containsSub (pat : List Char) : List Char → Bool
  | [] => pat.isPrefixOf []
  | c :: rest => pat.isPrefixOf (c :: rest) || containsSub pat rest

/-- The ai_fraud_keywords list of synthesize_findings. -/
def ai_fraud_keywords : List String :=
  ["fraud detection", "fraud prevention", "transaction monitoring",
   "anomaly detection", "chargeback protection", "risk scoring",
   "behavioral analytics", "anti money laundering", "aml",
   "identity verification", "kyc", "risk engine"]

/-- The tech_keywords dict of synthesize_findings, in insertion order. -/
def tech_keywords : List (String × String) :=
  [("tensorflow", "TensorFlow"), ("scikit-learn", "scikit-learn"),
   ("pytorch", "PyTorch"), ("xgboost", "XGBoost"),
   ("huggingface", "Hugging Face"), ("azureml", "Azure ML"),
   ("sagemaker", "AWS SageMaker"), ("vertex ai", "Google Vertex AI"),
   ("openai", "OpenAI")]

/-- The summary dict returned by synthesize_findings. -/
structure Findings where
  ai_fraud_detection : Bool
  technologies : Option (List String)
  evidence : List Record
  signals_found : Nat
deriving DecidableEq

/-- search_pipeline.synthesize_findings (lines 30-77): deduplicate the
evidence, join the contents (dict.get with default, so no KeyError
here), lowercase, strip punctuation, then keyword-match.  none models
the KeyError propagating out of deduplicate_evidence. -/
def synthesize_findings (evidence_list : List Record) : Option Findings :=
  (deduplicate_evidence evidence_list).map (fun deduped =>
    let raw_text := String.intercalate " " (deduped.map (fun e => e.content.getD ""))
    let text := stripPunct raw_text.toLower.toList
    let techs := tech_keywords.filterMap
      (fun p => if containsSub p.1.toList text then some p.2 else none)
    { ai_fraud_detection :=
        ai_fraud_keywords.any (fun kw => boundarySearch none kw.toList text)
      technologies := if techs.isEmpty then none else some techs
      evidence := deduped
      signals_found := deduped.length })

/-- The dict returned by SearchPipeline.search_company for one domain. -/
structure CompanyResult where
  domain : String
  confidence_score : Rat
  evidence_sources : Nat
  findings : Findings
deriving DecidableEq

/-- Python round(x, 2) on the mean, modelled on rationals (round half
up; the tie behaviour of float rounding is immaterial here). -/
def round2 (q : Rat) : Rat := ((round (q * 100) : Int) : Rat) / 100

/-- The generator expression sum(r["confidence"] for r in clean) read as
the list of confidences; none models the KeyError raised when a record
has no confidence key. -/
def optionConfs : List Record → Option (List Rat)
  | [] => some []
  | r :: rest =>
    match r.confidence with
    | none => none
    | some c => (optionConfs rest).map (fun cs => c :: cs)

/-- The error filter of search_company line 129: keep records without an
error key. -/
def clean_of (results : List Record) : List Record :=
  results.filter (fun r => r.error == none)

/-- The five evidence-source behaviours a search_company run fans out
to: search_jobs, search_news, scrape_website, fetch_html and
search_linkedin, each giving the outcome of a (domain, query, attempt)
invocation. -/
structure Sources where
  jobs : String → String → Nat → Outcome
  news : String → String → Nat → Outcome
  scrape : String → String → Nat → Outcome
  html : String → String → Nat → Outcome
  linkedin : String → String → Nat → Outcome

/-- The five safe_call tasks of one query, linearised in the gather
order of line 126 (job, news, scrape, html, linkedin); the default
retries argument is 2. -/
def call_sources (srcs : Sources) (domain query : String) (s : PipelineState) :
    List Record × PipelineState :=
  let a := safe_call s (srcs.jobs domain query) domain query 2
  let b := safe_call a.2 (srcs.news domain query) domain query 2
  let c := safe_call b.2 (srcs.scrape domain query) domain query 2
  let d := safe_call c.2 (srcs.html domain query) domain query 2
  let e := safe_call d.2 (srcs.linkedin domain query) domain query 2
  ([a.1, b.1, c.1, d.1, e.1], e.2)

/-- The query loop of search_company lines 116-127, accumulating the
results list across queries. -/
def company_records (srcs : Sources) (domain : String) :
    List String → PipelineState → List Record × PipelineState
  | [], s => ([], s)
  | q :: qs, s =>
    let cur := call_sources srcs domain q s
    let rest := company_records srcs domain qs cur.2
    (cur.1 ++ rest.1, rest.2)

/-- Lines 128-138 of search_company: filter errors, average the
confidences, round to two places, and assemble the result dict; none
models a KeyError raised either by the confidence sum or inside
synthesize_findings. -/
def mk_company_result (domain : String) (clean_results : List Record) :
    Option CompanyResult :=
  match optionConfs clean_results, synthesize_findings clean_results with
  | some confs, some f =>
    some { domain := domain
           confidence_score :=
             round2 (if clean_results.isEmpty then 0
                     else confs.sum / (clean_results.length : Rat))
           evidence_sources := clean_results.length
           findings := f }
  | _, _ => none

/-- SearchPipeline.search_company (lines 115-138). -/
def search_company (srcs : Sources) (domain : String) (queries : List String)
    (s : PipelineState) : Option CompanyResult × PipelineState :=
  let rs := company_records srcs domain queries s
  (mk_company_result domain (clean_of rs.1), rs.2)

/-- The per-domain gather of batch_search, preserving the input order
of the domains list while threading the shared state. -/
def batch_go (srcs : Sources) (queries : List String) :
    List String → PipelineState → List (Option CompanyResult) × PipelineState
  | [], s => ([], s)
  | d :: ds, s =>
    let cur := search_company srcs d queries s
    let rest := batch_go srcs queries ds cur.2
    (cur.1 :: rest.1, rest.2)

/-- asyncio.gather propagating the first raised exception: the awaited
list exists only when every per-domain task returned normally. -/
def gatherResults : List (Option CompanyResult) → Option (List CompanyResult)
  | [] => some []
  | none :: _ => none
  | some r :: rest => (gatherResults rest).map (fun l => r :: l)

/-- SearchPipeline.batch_search (lines 140-145): install the semaphore
of size max_parallel, run one search_company per domain, gather in
input order. -/
def batch_search (srcs : Sources) (domains queries : List String)
    (max_parallel : Nat) (s : PipelineState) :
    Option (List CompanyResult) × PipelineState :=
  let s0 : PipelineState := { s with semaphore := some max_parallel }
  let go := batch_go srcs queries domains s0
  (gatherResults go.1, go.2)

/-- query_generator.QueryStrategy; uuid4 identifiers are opaque to every
claim and are modelled by a fixed placeholder string. -/
structure QueryStrategy where
  id : String
  query_text : String
  source : String
  relevance_score : Rat
deriving DecidableEq

/-- The fallback strategy appended by QueryGenerator when too few lines
parse (query_generator.py lines 66-72). -/
def fallback_strategy : QueryStrategy :=
  { id := "uuid", query_text := "site:company.com product launch press release",
    source := "news_pr", relevance_score := 1/2 }

/-- One iteration of the line loop of QueryGenerator (lines 46-63),
parametrised by the Python float() parser pf (none = ValueError).  A
line without a pipe gives a single part and is skipped, exactly like
the explicit membership test of line 47. -/
def parse_line (pf : String → Option Rat) (line : String) : Option QueryStrategy :=
  match (line.splitOn "|").map String.trim with
  | [q, src, score] =>
    match pf score with
    | none => none
    | some f =>
      some { id := "uuid", query_text := q, source := src,
             relevance_score := max 0 (min 1 f) }
  | _ => none

/-- QueryGenerator._parse_lines (lines 37-73): parse every line of the
stripped raw model output, then append the fallback strategy when fewer
than min_required strategies were parsed.  splitlines is modelled on
newline characters. -/
def parse_lines (pf : String → Option Rat) (raw : String) (min_required : Nat) :
    List QueryStrategy :=
  let strategies := (raw.trim.splitOn "\n").filterMap (parse_line pf)
  if strategies.length < min_required then strategies ++ [fallback_strategy]
  else strategies

/-- QueryGenerator.expand_queries (lines 103-132): the LLM response raw
is an opaque input; its parsing uses min_required = 3. -/
def expand_queries (pf : String → Option Rat) (raw : String) : List QueryStrategy :=
  parse_lines pf raw 3

/-- The keyword parameters SearchPipeline.batch_search accepts
(search_pipeline.py line 140). -/
def batch_search_params : List String :=
  ["domains", "queries", "session", "max_parallel"]

/-- The keyword arguments the retry call of main.research_batch
supplies (main.py lines 75-81): one of them, research_goal, is not a
parameter of batch_search. -/
def expansion_call_kwargs : List String :=
  ["domains", "queries", "session", "research_goal", "max_parallel"]

/-- Python keyword binding: a call binds only when every supplied
keyword names a parameter of the callee; otherwise the call raises
TypeError before the callee body runs. -/
def call_binds (params kwargs : List String) : Bool :=
  kwargs.all (fun k => params.contains k)

/-- One iteration of the expansion feedback loop of main.research_batch
(main.py lines 67-82) for one already-computed result, given the query
texts extracted from the expansion strategies.  Below the threshold the
loop invokes pipeline.batch_search, but that call supplies the stray
research_goal keyword, so Python raises TypeError at the call site: the
body of batch_search never runs, the state is untouched and the
exception propagates (none) instead of result.update replacing the
dict.  The re-run-and-replace branch is kept behind the binding check
to mirror the source text, but it is unreachable.  At or above the
threshold the result is left alone. -/
def expansion_step (srcs : Sources) (threshold : Rat)
    (expanded_queries : List String) (max_parallel : Nat)
    (res : CompanyResult) (s : PipelineState) :
    Option CompanyResult × PipelineState :=
  if res.confidence_score < threshold then
    if call_binds batch_search_params expansion_call_kwargs then
      let br := batch_search srcs [res.domain] expanded_queries max_parallel s
      match br.1 with
      | some (r :: _) => (some r, br.2)
      | _ => (none, br.2)
    else (none, s)
  else (some res, s)

/-- Arithmetic mean of a list of rationals, 0 when the list is empty:
the aggregation the specification asserts for confidence scores. -/
def ratMean (l : List Rat) : Rat :=
  if l.isEmpty then 0 else l.sum / (l.length : Rat)

/-!  Concrete inputs used by the closed counterexample and witness
theorems below.  An always-succeeding source behaviour is one that
answers every (domain, query, attempt) with the same record. -/

/-- A source behaviour answering every invocation with one fixed
successful record. -/
def constSrc (c : String) (conf : Rat) : String → String → Nat → Outcome :=
  fun _ _ _ => Outcome.ok { content := some c, confidence := some conf }

/-- The fallback value used to name computed CompanyResult values. -/
def arbitraryResult : CompanyResult :=
  { domain := "", confidence_score := 0, evidence_sources := 0,
    findings := { ai_fraud_detection := false, technologies := none,
                  evidence := [], signals_found := 0 } }

/-- The findings synthesize_findings produces on an empty evidence
list. -/
def empty_findings : Findings :=
  { ai_fraud_detection := false, technologies := none, evidence := [],
    signals_found := 0 }

/-- C1 concrete input: the view of a stateful source returning a first
answer on its first invocation. -/
def first_source : Nat → Outcome :=
  fun _ => Outcome.ok { source := some "news", domain := some "acme.com",
                        query := some "fraud ml", content := some "first answer",
                        confidence := some (4/5) }

/-- C1 concrete input: the view of the same stateful source returning a
different answer on its second invocation. -/
def second_source : Nat → Outcome :=
  fun _ => Outcome.ok { source := some "news", domain := some "acme.com",
                        query := some "fraud ml", content := some "second answer",
                        confidence := some (3/5) }

/-- A pipeline state in which batch_search has installed the semaphore
and nothing is cached yet. -/
def fresh_state : PipelineState := { semaphore := some 20 }

/-- C2 concrete input: four sources answering with identical content at
confidence 1/5 and one with distinct content at confidence 4/5, so that
the pre-dedup mean 8/25 differs from the post-dedup mean 1/2. -/
def dupSources : Sources :=
  { jobs := constSrc "a" (1/5), news := constSrc "a" (1/5),
    scrape := constSrc "a" (1/5), html := constSrc "a" (1/5),
    linkedin := constSrc "b" (4/5) }

/-- The CompanyResult the pipeline computes on the C2 input. -/
def dupResult : CompanyResult :=
  ((search_company dupSources "acme.com" ["q"] fresh_state).1).getD arbitraryResult

/-- The state the pipeline computes on the C2 input. -/
def dupState : PipelineState :=
  (search_company dupSources "acme.com" ["q"] fresh_state).2

/-- C3 concrete input: the record sitting in the cache. -/
def hitRec : Record :=
  { source := some "news", content := some "cached evidence",
    confidence := some (7/10) }

/-- C3 concrete input: a state whose cache already holds the key of
(acme.com, q). -/
def hitState : PipelineState :=
  { semaphore := some 20, cache := [(hash_key "acme.com" "q", hitRec)] }

/-- C4 concrete input: five sources whose every invocation raises. -/
def failSources : Sources :=
  { jobs := fun _ _ _ => Outcome.exn "site unreachable",
    news := fun _ _ _ => Outcome.exn "site unreachable",
    scrape := fun _ _ _ => Outcome.exn "site unreachable",
    html := fun _ _ _ => Outcome.exn "site unreachable",
    linkedin := fun _ _ _ => Outcome.exn "site unreachable" }

/-- C4 concrete input: a weak result sitting below the threshold 3/5,
with nonzero evidence so that replacement is observable. -/
def weakResult : CompanyResult :=
  { domain := "acme.com", confidence_score := 1/2, evidence_sources := 3,
    findings := { ai_fraud_detection := true, technologies := some ["PyTorch"],
                  evidence := [], signals_found := 3 } }

/-- C4 concrete input: a result at or above the threshold 4/5. -/
def strongResult : CompanyResult :=
  { weakResult with confidence_score := 9/10 }

/-- C5 concrete input: two domains against an always-succeeding source
set. -/
def orderSources : Sources :=
  { jobs := constSrc "j" (1/2), news := constSrc "n" (1/2),
    scrape := constSrc "s" (1/2), html := constSrc "h" (1/2),
    linkedin := constSrc "l" (1/2) }

/-- The result list the pipeline computes on the C5 input. -/
def orderResults : List CompanyResult :=
  ((batch_search orderSources ["a.com", "b.com"] ["q"] 20 {}).1).getD []

/-- C6 concrete input: a source raising on its first invocation and
succeeding on its second. -/
def flakyRec : Record :=
  { source := some "jobs", content := some "recovered", confidence := some (9/10) }

/-- The attempt-indexed view of the C6 flaky source. -/
def flakySource : Nat → Outcome :=
  fun k => if k = 0 then Outcome.exn "connection reset" else Outcome.ok flakyRec

/-- C7 concrete input: a list with a duplicated content string. -/
def dupList : List Record :=
  [{ content := some "x", confidence := some (3/10) },
   { content := some "y", confidence := some (1/2) },
   { content := some "x", confidence := some (9/10) }]

/-- C8 concrete input: four sources sharing one content string and one
with another, so the error-filtered count 5 differs from the
post-dedup count 2. -/
def chanSources : Sources :=
  { jobs := constSrc "posting" (3/10), news := constSrc "posting" (3/10),
    scrape := constSrc "posting" (3/10), html := constSrc "blog" (9/10),
    linkedin := constSrc "posting" (3/10) }

/-- The CompanyResult the pipeline computes on the C8 input. -/
def chanResult : CompanyResult :=
  ((search_company chanSources "beta.com" ["q"] fresh_state).1).getD arbitraryResult

/-- The state the pipeline computes on the C8 input. -/
def chanState : PipelineState :=
  (search_company chanSources "beta.com" ["q"] fresh_state).2

/-- C10 concrete input: a list holding an error record without a
content key. -/
def errList : List Record :=
  [{ content := some "a" }, { error := some "timeout" }]

/-!  Helper lemmas shared by the claim theorems. -/

/-- A successful attempt returns the record at once, whatever the
number of remaining retries. -/
theorem run_attempts_ok (sem : Option Nat) (func : Nat → Outcome)
    (attempt remaining failed : Nat) (r : Record)
    (h : attempt_outcome sem func attempt = Outcome.ok r) :
    run_attempts sem func attempt remaining failed = (r, failed) := by
  cases remaining <;> simp [run_attempts, h]

/-- With a null semaphore every attempt raises, so the loop consumes
all remaining attempts, counts each of them as failed and degrades to
the TypeError record. -/
theorem run_attempts_none (func : Nat → Outcome) (attempt remaining failed : Nat) :
    run_attempts none func attempt remaining failed =
      (errRecord noneTypeMsg, failed + remaining + 1) := by
  induction remaining generalizing attempt failed with
  | zero => simp [run_attempts, attempt_outcome]
  | succ n ih =>
    simp only [run_attempts, attempt_outcome]
    rw [ih]
    refine congrArg (Prod.mk _) ?_
    omega

/-- optionConfs preserves the length of its input. -/
theorem optionConfs_length (l : List Record) :
    ∀ confs, optionConfs l = some confs → confs.length = l.length := by
  induction l with
  | nil =>
    intro confs h
    simp [optionConfs] at h
    simp [← h]
  | cons r rest ih =>
    intro confs h
    simp only [optionConfs] at h
    cases hc : r.confidence with
    | none => rw [hc] at h; cases h
    | some c =>
      rw [hc] at h
      cases ho : optionConfs rest with
      | none => rw [ho] at h; cases h
      | some cs =>
        rw [ho] at h
        have hcs := Option.some.inj h
        rw [← hcs]
        simp [ih cs ho]

/-- Rounding zero gives zero. -/
theorem round2_zero : round2 0 = 0 := by
  simp [round2]

/-- Characterisation of a successful mk_company_result. -/
theorem mk_company_result_some (d : String) (cl : List Record) (cr : CompanyResult)
    (h : mk_company_result d cl = some cr) :
    ∃ confs f, optionConfs cl = some confs ∧ synthesize_findings cl = some f ∧
      cr = { domain := d
             confidence_score :=
               round2 (if cl.isEmpty then 0 else confs.sum / (cl.length : Rat))
             evidence_sources := cl.length
             findings := f } := by
  unfold mk_company_result at h
  cases hc : optionConfs cl with
  | none => rw [hc] at h; cases h
  | some confs =>
    cases hs : synthesize_findings cl with
    | none => rw [hc, hs] at h; cases h
    | some f =>
      rw [hc, hs] at h
      exact ⟨confs, f, rfl, rfl, (Option.some.inj h).symm⟩

/-- Characterisation of a successful search_company run in terms of the
accumulated records of its query loop. -/
theorem search_company_some (srcs : Sources) (domain : String)
    (queries : List String) (s : PipelineState) (cr : CompanyResult)
    (h : (search_company srcs domain queries s).1 = some cr) :
    ∃ confs f,
      optionConfs (clean_of (company_records srcs domain queries s).1) = some confs ∧
      synthesize_findings (clean_of (company_records srcs domain queries s).1) = some f ∧
      cr = { domain := domain
             confidence_score :=
               round2 (if (clean_of (company_records srcs domain queries s).1).isEmpty
                       then 0
                       else confs.sum /
                         ((clean_of (company_records srcs domain queries s).1).length : Rat))
             evidence_sources := (clean_of (company_records srcs domain queries s).1).length
             findings := f } :=
  mk_company_result_some _ _ _ h

/-- Characterisation of a successful synthesize_findings run. -/
theorem synthesize_findings_some (cl : List Record) (f : Findings)
    (h : synthesize_findings cl = some f) :
    ∃ dd, deduplicate_evidence cl = some dd ∧ f.evidence = dd ∧
      f.signals_found = dd.length := by
  unfold synthesize_findings at h
  cases hd : deduplicate_evidence cl with
  | none => rw [hd] at h; cases h
  | some dd =>
    rw [hd] at h
    have hf := Option.some.inj h
    exact ⟨dd, rfl, by rw [← hf], by rw [← hf]⟩

/-- The confidence expression of search_company line 131 equals the
arithmetic mean of the successfully extracted confidences. -/
theorem ratMean_code_form (cl : List Record) (confs : List Rat)
    (h : optionConfs cl = some confs) :
    (if cl.isEmpty then (0 : Rat) else confs.sum / (cl.length : Rat)) =
      ratMean confs := by
  have hlen := optionConfs_length cl confs h
  cases cl with
  | nil =>
    simp [optionConfs] at h
    simp [← h, ratMean]
  | cons r rest =>
    have hne : confs ≠ [] := by
      intro hc
      rw [hc] at hlen
      simp at hlen
    simp [ratMean, hne, hlen]

/-- The kept records form a sublist of the input: relative order is
preserved and nothing new is invented. -/
theorem dedupGo_sublist (l : List Record) :
    ∀ seen d, dedupGo seen l = some d → List.Sublist d l := by
  induction l with
  | nil =>
    intro seen d h
    simp [dedupGo] at h
    subst h
    simp
  | cons item rest ih =>
    intro seen d h
    cases hc : item.content with
    | none => simp only [dedupGo, hc] at h; exact Option.noConfusion h
    | some c =>
      simp only [dedupGo, hc] at h
      by_cases hs : c ∈ seen
      · rw [if_pos hs] at h
        exact List.Sublist.cons item (ih seen d h)
      · rw [if_neg hs] at h
        cases hd : dedupGo (c :: seen) rest with
        | none => rw [hd] at h; cases h
        | some d2 =>
          rw [hd] at h
          have hdd := Option.some.inj h
          rw [← hdd]
          exact List.Sublist.cons₂ item (ih _ d2 hd)

/-- No kept record carries a content already recorded as seen. -/
theorem dedupGo_fresh (l : List Record) :
    ∀ seen d, dedupGo seen l = some d →
      ∀ p ∈ d, ∀ c ∈ seen, p.content ≠ some c := by
  induction l with
  | nil =>
    intro seen d h
    simp [dedupGo] at h
    subst h
    simp
  | cons item rest ih =>
    intro seen d h
    cases hc : item.content with
    | none => simp only [dedupGo, hc] at h; exact Option.noConfusion h
    | some c0 =>
      simp only [dedupGo, hc] at h
      by_cases hs : c0 ∈ seen
      · rw [if_pos hs] at h
        exact ih seen d h
      · rw [if_neg hs] at h
        cases hd : dedupGo (c0 :: seen) rest with
        | none => rw [hd] at h; cases h
        | some d2 =>
          rw [hd] at h
          have hdd := Option.some.inj h
          rw [← hdd]
          intro p hp c hcs
          rcases List.mem_cons.mp hp with hpi | hpd2
          · rw [hpi, hc]
            intro he
            exact hs ((Option.some.inj he) ▸ hcs)
          · exact ih (c0 :: seen) d2 hd p hpd2 c (List.mem_cons_of_mem c0 hcs)

/-- The contents of the kept records are pairwise distinct: at most one
record per distinct content string. -/
theorem dedupGo_content_nodup (l : List Record) :
    ∀ seen d, dedupGo seen l = some d → (d.map Record.content).Nodup := by
  induction l with
  | nil =>
    intro seen d h
    simp [dedupGo] at h
    subst h
    simp
  | cons item rest ih =>
    intro seen d h
    cases hc : item.content with
    | none => simp only [dedupGo, hc] at h; exact Option.noConfusion h
    | some c0 =>
      simp only [dedupGo, hc] at h
      by_cases hs : c0 ∈ seen
      · rw [if_pos hs] at h
        exact ih seen d h
      · rw [if_neg hs] at h
        cases hd : dedupGo (c0 :: seen) rest with
        | none => rw [hd] at h; cases h
        | some d2 =>
          rw [hd] at h
          have hdd := Option.some.inj h
          rw [← hdd]
          refine List.nodup_cons.mpr ⟨?_, ih (c0 :: seen) d2 hd⟩
          intro hmem
          rcases List.mem_map.mp hmem with ⟨p, hp, hpc⟩
          exact dedupGo_fresh rest (c0 :: seen) d2 hd p hp c0 (List.mem_cons_self c0 seen)
            (hpc.trans hc)

/-- Every input record has a kept representative with the same content:
at least one record per distinct content string. -/
theorem dedupGo_cover (l : List Record) :
    ∀ seen d, dedupGo seen l = some d →
      ∀ r ∈ l, (∃ c ∈ seen, r.content = some c) ∨ ∃ p ∈ d, p.content = r.content := by
  induction l with
  | nil =>
    intro seen d h r hr
    cases hr
  | cons item rest ih =>
    intro seen d h r hr
    cases hc : item.content with
    | none => simp only [dedupGo, hc] at h; exact Option.noConfusion h
    | some c0 =>
      simp only [dedupGo, hc] at h
      by_cases hs : c0 ∈ seen
      · rw [if_pos hs] at h
        rcases List.mem_cons.mp hr with hri | hrr
        · exact Or.inl ⟨c0, hs, hri ▸ hc⟩
        · exact ih seen d h r hrr
      · rw [if_neg hs] at h
        cases hd : dedupGo (c0 :: seen) rest with
        | none => rw [hd] at h; cases h
        | some d2 =>
          rw [hd] at h
          have hdd := Option.some.inj h
          rw [← hdd]
          rcases List.mem_cons.mp hr with hri | hrr
          · exact Or.inr ⟨item, List.mem_cons_self item d2, by rw [hri]⟩
          · rcases ih (c0 :: seen) d2 hd r hrr with ⟨c, hcs, hrc⟩ | ⟨p, hp, hpc⟩
            · rcases List.mem_cons.mp hcs with hcc0 | hcseen
              · exact Or.inr ⟨item, List.mem_cons_self item d2, by rw [hc, ← hcc0, hrc]⟩
              · exact Or.inl ⟨c, hcseen, hrc⟩
            · exact Or.inr ⟨p, List.mem_cons_of_mem item hp, hpc⟩

/-- Each kept record is the first record of the input carrying its
content: the first-seen record per distinct content wins. -/
theorem dedupGo_first (l : List Record) :
    ∀ seen d, dedupGo seen l = some d →
      ∀ p ∈ d, l.find? (fun r => r.content == p.content) = some p := by
  induction l with
  | nil =>
    intro seen d h
    simp [dedupGo] at h
    subst h
    simp
  | cons item rest ih =>
    intro seen d h p hp
    cases hc : item.content with
    | none => simp only [dedupGo, hc] at h; exact Option.noConfusion h
    | some c0 =>
      simp only [dedupGo, hc] at h
      by_cases hs : c0 ∈ seen
      · rw [if_pos hs] at h
        have hfresh := dedupGo_fresh rest seen d h p hp c0 hs
        have hne : (item.content == p.content) = false := by
          rw [hc]
          exact beq_eq_false_iff_ne.mpr (fun he => hfresh he.symm)
        rw [List.find?_cons_of_neg _ (by simp [hne])]
        exact ih seen d h p hp
      · rw [if_neg hs] at h
        cases hd : dedupGo (c0 :: seen) rest with
        | none => rw [hd] at h; cases h
        | some d2 =>
          rw [hd] at h
          have hdd := Option.some.inj h
          rw [← hdd] at hp
          rcases List.mem_cons.mp hp with hpi | hpd2
          · subst hpi
            rw [List.find?_cons_of_pos _ (by simp)]
          · have hfresh := dedupGo_fresh rest (c0 :: seen) d2 hd p hpd2 c0
              (List.mem_cons_self c0 seen)
            have hne : (item.content == p.content) = false := by
              rw [hc]
              exact beq_eq_false_iff_ne.mpr (fun he => hfresh he.symm)
            rw [List.find?_cons_of_neg _ (by simp [hne])]
            exact ih (c0 :: seen) d2 hd p hpd2

/-- A record without a content key anywhere in the input makes the
whole deduplication raise. -/
theorem dedupGo_none (l : List Record) :
    ∀ seen, (∃ r ∈ l, r.content = none) → dedupGo seen l = none := by
  induction l with
  | nil =>
    intro seen h
    rcases h with ⟨r, hr, _⟩
    cases hr
  | cons item rest ih =>
    intro seen h
    cases hc : item.content with
    | none => simp [dedupGo, hc]
    | some c =>
      rcases h with ⟨r, hr, hrc⟩
      rcases List.mem_cons.mp hr with hri | hrr
      · rw [hri, hc] at hrc
        cases hrc
      · have hrest : dedupGo (c :: seen) rest = none := ih (c :: seen) ⟨r, hrr, hrc⟩
        have hrest2 : dedupGo seen rest = none := ih seen ⟨r, hrr, hrc⟩
        simp [dedupGo, hc, hrest, hrest2]

/-- When every record carries a content key, deduplication returns a
list. -/
theorem dedupGo_total (l : List Record) :
    ∀ seen, (∀ r ∈ l, r.content ≠ none) → ∃ d, dedupGo seen l = some d := by
  induction l with
  | nil =>
    intro seen _
    exact ⟨[], rfl⟩
  | cons item rest ih =>
    intro seen h
    cases hc : item.content with
    | none => exact absurd hc (h item (List.mem_cons_self item rest))
    | some c =>
      by_cases hs : c ∈ seen
      · rcases ih seen (fun r hr => h r (List.mem_cons_of_mem item hr)) with ⟨d, hd⟩
        exact ⟨d, by simp [dedupGo, hc, if_pos hs, hd]⟩
      · rcases ih (c :: seen) (fun r hr => h r (List.mem_cons_of_mem item hr)) with ⟨d, hd⟩
        exact ⟨item :: d, by simp [dedupGo, hc, if_neg hs, hd]⟩

/-- synthesize_findings on the empty evidence list. -/
theorem synthesize_findings_nil : synthesize_findings [] = some empty_findings := by
  with_unfolding_all decide

/-- search_company aggregation over an empty record list. -/
theorem mk_company_result_nil (d : String) :
    mk_company_result d [] =
      some { domain := d, confidence_score := 0, evidence_sources := 0,
             findings := empty_findings } := by
  rw [mk_company_result]
  rw [show optionConfs [] = some [] from rfl, synthesize_findings_nil]
  simp [round2]

/-- The gathered per-domain list of batch_go has one entry per domain. -/
theorem batch_go_length (srcs : Sources) (queries : List String) :
    ∀ domains s, (batch_go srcs queries domains s).1.length = domains.length := by
  intro domains
  induction domains with
  | nil => intro s; rfl
  | cons d ds ih => intro s; simp [batch_go, ih]

/-- Every entry of batch_go that is a result is the result of a
search_company run on the domain at the same index. -/
theorem batch_go_domain (srcs : Sources) (queries : List String) :
    ∀ domains s i (h1 : i < domains.length)
      (h2 : i < (batch_go srcs queries domains s).1.length) cr,
      (batch_go srcs queries domains s).1.get ⟨i, h2⟩ = some cr →
        cr.domain = domains.get ⟨i, h1⟩ := by
  intro domains
  induction domains with
  | nil =>
    intro s i h1
    exact absurd h1 (by simp)
  | cons d ds ih =>
    intro s i h1 h2 cr hget
    cases i with
    | zero =>
      simp only [batch_go, List.get] at hget
      rcases search_company_some srcs d queries s cr hget with ⟨confs, f, _, _, hcr⟩
      rw [hcr]
      rfl
    | succ j =>
      simp only [batch_go, List.get] at hget
      exact ih _ j (Nat.lt_of_succ_lt_succ h1) (by simpa [batch_go] using h2) cr hget

/-- A successful gather has one result per task. -/
theorem gatherResults_length :
    ∀ (l : List (Option CompanyResult)) res, gatherResults l = some res →
      res.length = l.length := by
  intro l
  induction l with
  | nil =>
    intro res h
    simp [gatherResults] at h
    simp [← h]
  | cons o rest ih =>
    intro res h
    cases o with
    | none => simp [gatherResults] at h
    | some r =>
      simp only [gatherResults] at h
      cases hg : gatherResults rest with
      | none => rw [hg] at h; cases h
      | some res2 =>
        rw [hg] at h
        have hr := Option.some.inj h
        rw [← hr]
        simp [ih res2 hg]

/-- A successful gather preserves positions: the i-th task returned the
i-th result. -/
theorem gatherResults_get :
    ∀ (l : List (Option CompanyResult)) res, gatherResults l = some res →
      ∀ i (h1 : i < l.length) (h2 : i < res.length),
        l.get ⟨i, h1⟩ = some (res.get ⟨i, h2⟩) := by
  intro l
  induction l with
  | nil =>
    intro res h i h1
    exact absurd h1 (by simp)
  | cons o rest ih =>
    intro res h i h1 h2
    cases o with
    | none => simp [gatherResults] at h
    | some r =>
      simp only [gatherResults] at h
      cases hg : gatherResults rest with
      | none => rw [hg] at h; cases h
      | some res2 =>
        rw [hg] at h
        have hr := Option.some.inj h
        subst hr
        cases i with
        | zero => rfl
        | succ j =>
          exact ih res2 hg j (Nat.lt_of_succ_lt_succ h1) (Nat.lt_of_succ_lt_succ h2)

/-!  Claim theorems. -/

/-- Claim C1 (code-bug evidence): safe_call never writes the cache, so a
successful miss is NOT stored before being returned.  The first conjunct
shows every call preserves the cache store; the remaining conjuncts
evaluate the claimed scenario: against a stateful source answering
differently on its second invocation, the second call with the same
(domain, query) returns the second answer instead of the cached first
one, and cache_hits stays 0 instead of growing by 1. -/
theorem safe_call_never_caches :
    (∀ s func domain query retries,
        (safe_call s func domain query retries).2.cache = s.cache) ∧
    (safe_call fresh_state first_source "acme.com" "fraud ml" 2).1.content =
      some "first answer" ∧
    (safe_call (safe_call fresh_state first_source "acme.com" "fraud ml" 2).2
        second_source "acme.com" "fraud ml" 2).1.content = some "second answer" ∧
    (safe_call (safe_call fresh_state first_source "acme.com" "fraud ml" 2).2
        second_source "acme.com" "fraud ml" 2).2.cache_hits = 0 := by
  refine ⟨?_, ?_, ?_, ?_⟩
  · intro s func domain query retries
    simp only [safe_call]
    split <;> rfl
  · with_unfolding_all decide
  · with_unfolding_all decide
  · with_unfolding_all decide

/-- Claim C3 counterexample: on a cache hit the total-request counter
does not stay unchanged; it moves from 0 to 1 while the cached record is
returned and cache_hits becomes 1. -/
theorem cache_hit_total_requests_counterexample :
    (safe_call hitState (fun _ => Outcome.exn "network down") "acme.com" "q" 2).1 = hitRec ∧
    (safe_call hitState (fun _ => Outcome.exn "network down") "acme.com" "q" 2).2.cache_hits = 1 ∧
    hitState.total_requests = 0 ∧
    (safe_call hitState (fun _ => Outcome.exn "network down") "acme.com" "q" 2).2.total_requests = 1 := by
  refine ⟨?_, ?_, ?_, ?_⟩ <;> with_unfolding_all decide

/-- Claim C3 (amended): on a cache hit safe_call returns the cached
record with no dependence on the source function (the equation holds for
every func, so the source is not invoked and nothing is retried) and
increments cache_hits by exactly 1 - but total_requests is incremented
too: the total-request counter counts every call, hits included, not
only misses. -/
theorem safe_call_hit_behavior (s : PipelineState) (func : Nat → Outcome)
    (domain query : String) (retries : Nat) (r : Record)
    (h : cacheGet s.cache (hash_key domain query) = some r) :
    safe_call s func domain query retries =
      (r, { s with total_requests := s.total_requests + 1,
                   cache_hits := s.cache_hits + 1 }) := by
  simp [safe_call, h]

/-- Witness for safe_call_hit_behavior at the concrete hit state. -/
theorem safe_call_hit_behavior_witness :
    cacheGet hitState.cache (hash_key "acme.com" "q") = some hitRec ∧
    safe_call hitState (fun _ => Outcome.timeout) "acme.com" "q" 2 =
      (hitRec,
       { hitState with total_requests := hitState.total_requests + 1,
                       cache_hits := hitState.cache_hits + 1 }) :=
  ⟨by with_unfolding_all decide,
   safe_call_hit_behavior hitState (fun _ => Outcome.timeout) "acme.com" "q" 2 hitRec
     (by with_unfolding_all decide)⟩

/-- Claim C6: a source raising on its first invocation and succeeding on
its second, with retries at least 1 and an uncached key, makes safe_call
return the success record and increments failed_requests by exactly 1
(and, as on every call, total_requests by 1). -/
theorem safe_call_retry_once_success (s : PipelineState) (func : Nat → Outcome)
    (domain query m : String) (n retries : Nat) (r : Record)
    (hc : cacheGet s.cache (hash_key domain query) = none)
    (hsem : s.semaphore = some n)
    (h0 : func 0 = Outcome.exn m)
    (h1 : func 1 = Outcome.ok r)
    (hr : 1 ≤ retries) :
    safe_call s func domain query retries =
      (r, { s with total_requests := s.total_requests + 1,
                   failed_requests := s.failed_requests + 1 }) := by
  obtain ⟨k, rfl⟩ : ∃ k, retries = k + 1 := ⟨retries - 1, by omega⟩
  have hstep : run_attempts (some n) func 0 (k + 1) s.failed_requests =
      (r, s.failed_requests + 1) := by
    rw [run_attempts]
    simp only [attempt_outcome, h0]
    exact run_attempts_ok (some n) func 1 k (s.failed_requests + 1) r
      (by simp [attempt_outcome, h1])
  simp [safe_call, hc, hsem, hstep]

/-- Witness: the flaky source at the fresh state with retries = 2. -/
theorem safe_call_retry_once_success_witness :
    safe_call fresh_state flakySource "a.com" "q" 2 =
      (flakyRec,
       { fresh_state with total_requests := fresh_state.total_requests + 1,
                          failed_requests := fresh_state.failed_requests + 1 }) :=
  safe_call_retry_once_success fresh_state flakySource "a.com" "q" "connection reset"
    20 2 flakyRec (by decide) rfl (by with_unfolding_all decide)
    (by with_unfolding_all decide) (by decide)

/-- Claim C9: on a cache miss while the semaphore is still None (as for
stream_evidence on a fresh SearchPipeline), safe_call never raises to
its caller: the TypeError raised when entering the null semaphore
context is caught by the generic except branch on every attempt, so
failed_requests grows by exactly retries + 1 and an error record is
returned (one total request is counted, as on every call). -/
theorem safe_call_null_semaphore (s : PipelineState) (func : Nat → Outcome)
    (domain query : String) (retries : Nat)
    (hsem : s.semaphore = none)
    (hc : cacheGet s.cache (hash_key domain query) = none) :
    safe_call s func domain query retries =
      (errRecord noneTypeMsg,
       { s with total_requests := s.total_requests + 1,
                failed_requests := s.failed_requests + retries + 1 }) := by
  simp [safe_call, hc, hsem, run_attempts_none]

/-- Witness: a fresh SearchPipeline state with the default retries 2. -/
theorem safe_call_null_semaphore_witness :
    safe_call {} (fun _ => Outcome.ok { content := some "x" }) "a.com" "q" 2 =
      (errRecord noneTypeMsg,
       { ({} : PipelineState) with
           total_requests := ({} : PipelineState).total_requests + 1,
           failed_requests := ({} : PipelineState).failed_requests + 2 + 1 }) :=
  safe_call_null_semaphore {} (fun _ => Outcome.ok { content := some "x" })
    "a.com" "q" 2 rfl rfl

/-- Claim C2 counterexample: on the duplicate-content input the
confidence_score is 8/25, the mean over the error-filtered records
before deduplication, while the mean over the deduplicated retained
records is 1/2: the two differ, so the score is not the post-dedup
mean. -/
theorem confidence_mean_prededup_counterexample :
    ((search_company dupSources "acme.com" ["q"] fresh_state).1.map
        (fun r => r.confidence_score)) = some (8/25) ∧
    ((deduplicate_evidence
        (clean_of (company_records dupSources "acme.com" ["q"] fresh_state).1)).map
        (fun dd => ratMean (dd.map (fun r => r.confidence.getD 0)))) = some (1/2) ∧
    (8/25 : Rat) ≠ 1/2 := by
  refine ⟨?_, ?_, ?_⟩ <;> with_unfolding_all decide

/-- Claim C2 (amended): confidence_score equals the two-decimal rounding
of the arithmetic mean of the confidences of the records retained after
error-filtering but BEFORE deduplication, and 0 when no error-free
records remain; deduplication happens only afterwards, inside
synthesize_findings. -/
theorem confidence_score_mean_of_clean (srcs : Sources) (domain : String)
    (queries : List String) (s : PipelineState) (cr : CompanyResult)
    (h : (search_company srcs domain queries s).1 = some cr) :
    ∃ confs,
      optionConfs (clean_of (company_records srcs domain queries s).1) = some confs ∧
      cr.confidence_score = round2 (ratMean confs) ∧
      (clean_of (company_records srcs domain queries s).1 = [] →
        cr.confidence_score = 0) := by
  rcases search_company_some srcs domain queries s cr h with ⟨confs, f, hc, hs, hcr⟩
  refine ⟨confs, hc, ?_, ?_⟩
  · rw [hcr]
    exact congrArg round2 (ratMean_code_form _ confs hc)
  · intro hnil
    rw [hcr]
    simp only [hnil]
    simp [round2_zero]

/-- Witness for confidence_score_mean_of_clean on the duplicate-content
input. -/
theorem confidence_score_mean_of_clean_witness :
    ∃ confs,
      optionConfs (clean_of (company_records dupSources "acme.com" ["q"] fresh_state).1) =
        some confs ∧
      dupResult.confidence_score = round2 (ratMean confs) ∧
      (clean_of (company_records dupSources "acme.com" ["q"] fresh_state).1 = [] →
        dupResult.confidence_score = 0) :=
  confidence_score_mean_of_clean dupSources "acme.com" ["q"] fresh_state dupResult
    (by with_unfolding_all decide)

/-- Claim C8 counterexample: on the shared-content input the pipeline's
evidence_sources is 5, the number of error-filtered records before
deduplication, while only 2 records survive deduplication. -/
theorem evidence_sources_prededup_counterexample :
    ((search_company chanSources "beta.com" ["q"] fresh_state).1.map
        (fun r => r.evidence_sources)) = some 5 ∧
    ((deduplicate_evidence
        (clean_of (company_records chanSources "beta.com" ["q"] fresh_state).1)).map
        List.length) = some 2 ∧
    (5 : Nat) ≠ 2 := by
  refine ⟨?_, ?_, ?_⟩ <;> with_unfolding_all decide

/-- Claim C8 (amended): evidence_sources equals the count of records
retained after error-filtering but BEFORE deduplication - the same set
whose mean defines confidence_score - while the post-dedup count is
reported separately as findings.signals_found (and findings.evidence is
the deduplicated list). -/
theorem evidence_sources_clean_count (srcs : Sources) (domain : String)
    (queries : List String) (s : PipelineState) (cr : CompanyResult)
    (h : (search_company srcs domain queries s).1 = some cr) :
    cr.evidence_sources = (clean_of (company_records srcs domain queries s).1).length ∧
    ∃ dd,
      deduplicate_evidence (clean_of (company_records srcs domain queries s).1) = some dd ∧
      cr.findings.signals_found = dd.length ∧ cr.findings.evidence = dd := by
  rcases search_company_some srcs domain queries s cr h with ⟨confs, f, hc, hs, hcr⟩
  rcases synthesize_findings_some _ f hs with ⟨dd, hdd, hev, hsig⟩
  subst hcr
  exact ⟨rfl, dd, hdd, hsig, hev⟩

/-- Witness for evidence_sources_clean_count on the shared-content
input. -/
theorem evidence_sources_clean_count_witness :
    chanResult.evidence_sources =
      (clean_of (company_records chanSources "beta.com" ["q"] fresh_state).1).length ∧
    ∃ dd,
      deduplicate_evidence
        (clean_of (company_records chanSources "beta.com" ["q"] fresh_state).1) = some dd ∧
      chanResult.findings.signals_found = dd.length ∧ chanResult.findings.evidence = dd :=
  evidence_sources_clean_count chanSources "beta.com" ["q"] fresh_state chanResult
    (by with_unfolding_all decide)

/-- Claim C5: whenever batch_search returns a result list, it has
exactly one entry per input domain and the i-th entry's domain field is
the i-th input domain.  The model's gather is input-ordered by
construction: completion order only permutes the commuting counter
updates, never the result positions. -/
theorem batch_search_order_aligned (srcs : Sources) (domains queries : List String)
    (max_parallel : Nat) (s : PipelineState) (results : List CompanyResult)
    (h : (batch_search srcs domains queries max_parallel s).1 = some results) :
    results.length = domains.length ∧
    ∀ i (h1 : i < domains.length) (h2 : i < results.length),
      (results.get ⟨i, h2⟩).domain = domains.get ⟨i, h1⟩ := by
  have hg : gatherResults
      (batch_go srcs queries domains { s with semaphore := some max_parallel }).1 =
      some results := h
  have hlen := gatherResults_length _ _ hg
  have hlen2 := batch_go_length srcs queries domains { s with semaphore := some max_parallel }
  constructor
  · rw [hlen, hlen2]
  · intro i h1 h2
    have h2l : i <
        (batch_go srcs queries domains { s with semaphore := some max_parallel }).1.length := by
      rw [hlen2]; exact h1
    have hget := gatherResults_get _ _ hg i h2l h2
    exact batch_go_domain srcs queries domains _ i h1 h2l _ hget

/-- Witness: two domains against always-succeeding sources. -/
theorem batch_search_order_aligned_witness :
    (batch_search orderSources ["a.com", "b.com"] ["q"] 20 {}).1 = some orderResults ∧
    (orderResults.length = (["a.com", "b.com"] : List String).length ∧
     ∀ i (h1 : i < (["a.com", "b.com"] : List String).length) (h2 : i < orderResults.length),
       (orderResults.get ⟨i, h2⟩).domain = (["a.com", "b.com"] : List String).get ⟨i, h1⟩) :=
  ⟨by with_unfolding_all decide,
   batch_search_order_aligned orderSources ["a.com", "b.com"] ["q"] 20 {} orderResults
     (by with_unfolding_all decide)⟩

/-- Claim C4 counterexample: for a weak domain (confidence 1/2 below
threshold 3/5) handed an empty expansion list, the loop does not leave
the original CompanyResult standing: its batch_search call raises
TypeError at once (stray research_goal keyword), so the iteration
yields no result at all - the exception propagates to the handler of
research_batch and the request fails instead of returning the original
result. -/
theorem expansion_empty_raises_counterexample :
    expansion_step failSources (3/5) [] 20 weakResult {} = (none, {}) ∧
    (expansion_step failSources (3/5) [] 20 weakResult {}).1 ≠ some weakResult := by
  refine ⟨?_, ?_⟩ <;> with_unfolding_all decide

/-- Claim C4 (amended): the expansion loop never reaches a re-run or a
replacement: the retry call passes the keyword research_goal, which
batch_search does not accept, so for every result below the threshold
the call raises TypeError at once - no state change, no replacement,
for empty and non-empty expansion lists alike - and the exception
propagates out of the loop; at or above the threshold the result is
left alone.  Independently, the empty-expansion trigger cannot arise
from the generator: for every float parser, raw model output and
positive min_required, _parse_lines returns at least one strategy
because a fallback is appended whenever fewer than min_required lines
parse. -/
theorem expansion_goal_kw_and_fallback :
    (∀ pf raw n, 1 ≤ n → parse_lines pf raw n ≠ []) ∧
    call_binds batch_search_params expansion_call_kwargs = false ∧
    (∀ srcs t es mp res s, res.confidence_score < t →
      expansion_step srcs t es mp res s = (none, s)) ∧
    (∀ srcs t es mp res s, ¬ res.confidence_score < t →
      expansion_step srcs t es mp res s = (some res, s)) := by
  have hkw : call_binds batch_search_params expansion_call_kwargs = false := by decide
  refine ⟨?_, hkw, ?_, ?_⟩
  · intro pf raw n hn
    simp only [parse_lines]
    split
    · simp
    · next hlt =>
      intro hemp
      rw [hemp] at hlt
      simp at hlt
      omega
  · intro srcs t es mp res s h
    simp [expansion_step, h, hkw]
  · intro srcs t es mp res s h
    simp [expansion_step, h]

/-- Witness: the fallback conjunct at a pipeless raw output with
min_required 3, the below-threshold conjunct at the weak result and
the at-or-above conjunct at the strong result. -/
theorem expansion_goal_kw_and_fallback_witness :
    ((1 : Nat) ≤ 3 ∧ parse_lines (fun _ => none) "no pipes here" 3 ≠ []) ∧
    ((1/2 : Rat) < 4/5 ∧
      expansion_step failSources (4/5) [] 10 weakResult {} = (none, {})) ∧
    (¬ (9/10 : Rat) < 4/5 ∧
      expansion_step failSources (4/5) [] 10 strongResult {} = (some strongResult, {})) :=
  ⟨⟨by decide, expansion_goal_kw_and_fallback.1 (fun _ => none) "no pipes here" 3 (by decide)⟩,
   ⟨by with_unfolding_all decide,
    expansion_goal_kw_and_fallback.2.2.1 failSources (4/5) [] 10 weakResult {}
      (by with_unfolding_all decide)⟩,
   ⟨by with_unfolding_all decide,
    expansion_goal_kw_and_fallback.2.2.2 failSources (4/5) [] 10 strongResult {}
      (by with_unfolding_all decide)⟩⟩

/-- Claim C7: on any list whose records all carry a content string,
deduplicate_evidence succeeds and returns exactly one record per
distinct content string - contents compared exactly, with no
normalisation in the model of the fingerprint - keeping the first-seen
record per content and preserving the relative order of kept records
(the output is a sublist of the input). -/
theorem deduplicate_evidence_first_seen (l : List Record)
    (h : ∀ r ∈ l, r.content ≠ none) :
    ∃ d, deduplicate_evidence l = some d ∧
      List.Sublist d l ∧
      (d.map Record.content).Nodup ∧
      (∀ r ∈ l, ∃ p ∈ d, p.content = r.content) ∧
      (∀ p ∈ d, l.find? (fun r => r.content == p.content) = some p) := by
  rcases dedupGo_total l [] h with ⟨d, hd⟩
  refine ⟨d, hd, dedupGo_sublist l [] d hd, dedupGo_content_nodup l [] d hd, ?_,
    dedupGo_first l [] d hd⟩
  intro r hr
  rcases dedupGo_cover l [] d hd r hr with ⟨c, hcs, _⟩ | hok
  · cases hcs
  · exact hok

/-- Witness on a list with a duplicated content string. -/
theorem deduplicate_evidence_first_seen_witness :
    (∀ r ∈ dupList, r.content ≠ none) ∧
    (∃ d, deduplicate_evidence dupList = some d ∧
      List.Sublist d dupList ∧
      (d.map Record.content).Nodup ∧
      (∀ r ∈ dupList, ∃ p ∈ d, p.content = r.content) ∧
      (∀ p ∈ d, dupList.find? (fun r => r.content == p.content) = some p)) :=
  ⟨by decide, deduplicate_evidence_first_seen dupList (by decide)⟩

/-- Claim C10: deduplicate_evidence is partial at its interface: any
input containing a record without a content key makes it raise KeyError
(modelled by none) rather than skip or keep the record; it is total
when every record carries a content string; and the error filter of
search_company establishes that precondition whenever the sources put a
content string on every non-error record. -/
theorem deduplicate_evidence_partiality :
    (∀ l : List Record, (∃ r ∈ l, r.content = none) → deduplicate_evidence l = none) ∧
    (∀ l : List Record, (∀ r ∈ l, r.content ≠ none) →
      ∃ d, deduplicate_evidence l = some d) ∧
    (∀ results : List Record,
      (∀ r ∈ results, r.error = none → r.content ≠ none) →
      ∀ r ∈ clean_of results, r.content ≠ none) := by
  refine ⟨?_, ?_, ?_⟩
  · intro l hl
    exact dedupGo_none l [] hl
  · intro l hl
    exact dedupGo_total l [] hl
  · intro results hres r hr
    rcases List.mem_filter.mp hr with ⟨hmem, hcond⟩
    exact hres r hmem (by simpa using hcond)

/-- Witness: the error record of errList has no content key, so the
whole deduplication raises. -/
theorem deduplicate_evidence_partiality_witness :
    (∃ r ∈ errList, r.content = none) ∧ deduplicate_evidence errList = none :=
  ⟨by decide, deduplicate_evidence_partiality.1 errList (by decide)⟩
